import Mathlib

/-!
Verification development for the cinedraries build-time asset pipeline,
covering the stable-frame-selection routine and the incremental
freshness gate of the frame-extraction script.  JavaScript numbers are
modelled as exact rationals (every literal the scripts use in the logic
verified here — 0.5, 0.3, 10, 2.0 — and every timestamp they derive is
an exact decimal, so no binary-rounding behaviour is lost), file
modification times as integers (milliseconds), and each external-engine
interaction as an abstract outcome value fed to the function that
consumed the real process's exit code and captured diagnostics.
-/

namespace Cinedraries

/-- Boolean test that the first character list is an initial segment of the
second; used to model the JavaScript String.startsWith / String.endsWith
calls of the scripts. -/
def listLeads : List Char → List Char → Bool
  | [], _ => true
  | _ :: _, [] => false
  | a :: as, b :: bs => a == b && listLeads as bs

/-- Model of JavaScript s.startsWith(p). -/
def jsStartsWith (s p : String) : Bool := listLeads p.data s.data

/-- Model of JavaScript s.endsWith(p). -/
def jsEndsWith (s p : String) : Bool := listLeads p.data.reverse s.data.reverse

theorem listLeads_extend (p l r : List Char) (h : listLeads p l = true) :
    listLeads p (l ++ r) = true := by
  induction p generalizing l with
  | nil => rfl
  | cons a as ih =>
    cases l with
    | nil => simp [listLeads] at h
    | cons b bs =>
      simp only [listLeads, Bool.and_eq_true] at h ⊢
      exact ⟨h.1, ih bs h.2⟩

theorem listLeads_refl (p : List Char) : listLeads p p = true := by
  induction p with
  | nil => rfl
  | cons a as ih => simp [listLeads, ih]

theorem listLeads_self_append (p r : List Char) : listLeads p (p ++ r) = true :=
  listLeads_extend p p r (listLeads_refl p)

/-- Base name of every thumbnail artifact, OUTPUT_BASE_FILENAME in the
extraction script. -/
def OUTPUT_BASE_FILENAME : String := "firstframe"

/-- A directory entry as the gate sees it: a file name and its
last-modified time in milliseconds. -/
structure FileEntry where
  name : String
  mtime : Int
deriving DecidableEq, Repr

/-- The filter the gate applies to directory entries:
file.startsWith(OUTPUT_BASE_FILENAME) && file.endsWith(".webp"). -/
def matchesOutput (name : String) : Bool :=
  jsStartsWith name OUTPUT_BASE_FILENAME && jsEndsWith name ".webp"

/-- The for-loop of needsExtraction: returns false at the first existing
file whose mtime is at least the source's, true if the loop finishes. -/
def staleLoop (srcMtime : Int) : List FileEntry → Bool
  | [] => true
  | f :: rest => if srcMtime ≤ f.mtime then false else staleLoop srcMtime rest

/-- Model of needsExtraction(inputPath, outputDir) from the stable-frame
script: the output directory is `none` when it does not exist, otherwise
`some` of its entries.  Reading the filesystem is the function's only
interaction with the world, so the embedding is a pure predicate of the
snapshot it reads. -/
def needsExtraction (srcMtime : Int) : Option (List FileEntry) → Bool
  | none => true
  | some files =>
    let existingFiles := files.filter (fun f => matchesOutput f.name)
    if existingFiles.isEmpty then true
    else staleLoop srcMtime existingFiles

/-- Model of the single-file variant needsExtraction(inputPath, outputPath)
from the first-frame script: `none` when the output file is missing,
otherwise `some` of its mtime; stale iff input.mtime > output.mtime. -/
def needsExtractionFile (srcMtime : Int) : Option Int → Bool
  | none => true
  | some outMtime => decide (outMtime < srcMtime)

theorem staleLoop_eq_false_iff (s : Int) (l : List FileEntry) :
    staleLoop s l = false ↔ ∃ f ∈ l, s ≤ f.mtime := by
  induction l with
  | nil => simp [staleLoop]
  | cons f rest ih =>
    by_cases h : s ≤ f.mtime
    · simp [staleLoop, h]
    · simp [staleLoop, h, ih]

theorem staleLoop_eq_true_iff (s : Int) (l : List FileEntry) :
    staleLoop s l = true ↔ ∀ f ∈ l, f.mtime < s := by
  induction l with
  | nil => simp [staleLoop]
  | cons f rest ih =>
    by_cases h : s ≤ f.mtime
    · simp [staleLoop, h]
    · simp [staleLoop, h, ih, lt_of_not_le h]

/-- C2.  The Incremental Gate is a pure predicate of the filesystem
snapshot it reads: a missing output directory is stale; a present
directory is stale exactly when every entry matching the output-name
prefix and extension (vacuously, when none matches) is strictly older
than the source, and fresh exactly when at least one matching entry is
at least as new as the source; the single-file variant is stale iff the
output is missing or strictly older than the source. -/
theorem incremental_gate_characterization (src m : Int) (files : List FileEntry) :
    needsExtraction src none = true
    ∧ (needsExtraction src (some files) = false
        ↔ ∃ f ∈ files, matchesOutput f.name = true ∧ src ≤ f.mtime)
    ∧ (needsExtraction src (some files) = true
        ↔ ∀ f ∈ files, matchesOutput f.name = true → f.mtime < src)
    ∧ needsExtractionFile src none = true
    ∧ (needsExtractionFile src (some m) = true ↔ m < src) := by
  refine ⟨rfl, ?_, ?_, rfl, by simp [needsExtractionFile]⟩
  · by_cases hemp : (files.filter (fun f => matchesOutput f.name)).isEmpty
    · simp only [needsExtraction, hemp, if_true]
      constructor
      · intro h; exact absurd h (by simp)
      · rintro ⟨f, hf, hm, _⟩
        rw [List.isEmpty_iff, List.filter_eq_nil_iff] at hemp
        exact absurd hm (by simpa using hemp f hf)
    · simp only [needsExtraction]
      rw [if_neg hemp, staleLoop_eq_false_iff]
      constructor
      · rintro ⟨f, hf, hm⟩
        rw [List.mem_filter] at hf
        exact ⟨f, hf.1, hf.2, hm⟩
      · rintro ⟨f, hf, hmatch, hm⟩
        exact ⟨f, List.mem_filter.mpr ⟨hf, hmatch⟩, hm⟩
  · by_cases hemp : (files.filter (fun f => matchesOutput f.name)).isEmpty
    · simp only [needsExtraction, hemp, if_true]
      rw [List.isEmpty_iff, List.filter_eq_nil_iff] at hemp
      simp only [true_iff]
      intro f hf hm
      exact absurd hm (by simpa using hemp f hf)
    · simp only [needsExtraction]
      rw [if_neg hemp, staleLoop_eq_true_iff]
      constructor
      · intro h f hf hm
        exact h f (List.mem_filter.mpr ⟨hf, hm⟩)
      · intro h f hf
        rw [List.mem_filter] at hf
        exact h f hf.1 hf.2

/-- Decimal digit character for a digit value, as produced when a
JavaScript number is rendered in base 10. -/
def digitChar : Nat → Char
  | 0 => '0'
  | 1 => '1'
  | 2 => '2'
  | 3 => '3'
  | 4 => '4'
  | 5 => '5'
  | 6 => '6'
  | 7 => '7'
  | 8 => '8'
  | _ => '9'

/-- Fuelled base-10 rendering of a natural number, most significant digit
first; the fuel n+1 always suffices for input n. -/
def natDigitsAux : Nat → Nat → List Char
  | 0, _ => []
  | fuel + 1, n =>
    if n < 10 then [digitChar n]
    else natDigitsAux fuel (n / 10) ++ [digitChar (n % 10)]

/-- Base-10 rendering of a natural number as characters. -/
def natDigits (n : Nat) : List Char := natDigitsAux (n + 1) n

/-- Model of JavaScript Number.toFixed(1) as a character list, for the
nonnegative exact multiples of 1/10 that the extraction script formats
(every selected timestamp is a multiple of 1/2): integer part, a dot,
and the tenths digit. -/
def toFixed1Data (q : ℚ) : List Char :=
  let n := ((q * 10).floor).toNat
  natDigits (n / 10) ++ '.' :: [digitChar (n % 10)]

/-- Model of JavaScript str.replace(".", "-") (string pattern: first
occurrence only) on a character list. -/
def replDot : List Char → List Char
  | [] => []
  | c :: r => if c = '.' then '-' :: r else c :: replDot r

/-- Output artifact name built by extractStableFrame:
OUTPUT_BASE_FILENAME, two hyphens, the timestamp via toFixed(1) with the
dot replaced by a hyphen, then the literal suffix s.webp. -/
def stableOutputFilename (t : ℚ) : String :=
  String.mk (OUTPUT_BASE_FILENAME.data ++ "--".data ++ replDot (toFixed1Data t) ++ "s.webp".data)

/-- Output artifact name built by extractSimpleFrame, duplicated in the
source with the same formula as extractStableFrame. -/
def simpleOutputFilename (t : ℚ) : String :=
  String.mk (OUTPUT_BASE_FILENAME.data ++ "--".data ++ replDot (toFixed1Data t) ++ "s.webp".data)

/-- Reference artifact name assembled literally from the naming
convention stated by the specification: baseName, two hyphens, the
timestamp's integer digits, a hyphen in place of the decimal point, the
tenths digit, the letter s, and the webp extension. -/
def specArtifactName (t : ℚ) : String :=
  let n := ((t * 10).floor).toNat
  String.mk ("firstframe".data ++ "--".data
    ++ (natDigits (n / 10) ++ '-' :: [digitChar (n % 10)])
    ++ "s".data ++ ".webp".data)

theorem digitChar_ne_dot (k : Nat) : digitChar k ≠ '.' := by
  unfold digitChar
  split <;> decide

theorem natDigitsAux_no_dot (fuel n : Nat) (c : Char)
    (hc : c ∈ natDigitsAux fuel n) : c ≠ '.' := by
  induction fuel generalizing n with
  | zero => simp [natDigitsAux] at hc
  | succ f ih =>
    rw [natDigitsAux] at hc
    by_cases h : n < 10
    · rw [if_pos h] at hc
      simp at hc
      rw [hc]; exact digitChar_ne_dot n
    · rw [if_neg h] at hc
      rcases List.mem_append.mp hc with h1 | h1
      · exact ih (n / 10) h1
      · simp at h1
        rw [h1]; exact digitChar_ne_dot (n % 10)

theorem replDot_at_dot (A B : List Char) (hA : ∀ c ∈ A, c ≠ '.') :
    replDot (A ++ '.' :: B) = A ++ '-' :: B := by
  induction A with
  | nil => rfl
  | cons a as ih =>
    have ha : a ≠ '.' := hA a (List.mem_cons_self a as)
    simp only [List.cons_append, replDot, if_neg ha, List.append_eq]
    rw [ih (fun c hc => hA c (List.mem_cons_of_mem a hc))]

/-- A JavaScript number as the scorer produces it: either an exact
rational or NaN (the value of parseFloat on a dots-only capture, which
then propagates through 1 - ssim). -/
inductive JsNum where
  | num (q : ℚ)
  | nan
deriving DecidableEq, Repr

/-- Outcome of one spawned engine process as its handlers observe it:
either the error event fired (the process could not be started), or the
close event fired with an exit code and the accumulated stderr text. -/
inductive EngineRun where
  | spawnError
  | closed (exitCode : Int) (stderrText : String)
deriving DecidableEq, Repr

/-- Character class of the capture group in the regex All:([0-9.]+). -/
def isScoreChar (c : Char) : Bool := c.isDigit || c == '.'

/-- Left-to-right scan for the first match of the JavaScript regex
All:([0-9.]+), returning the captured group: at each position, if the
literal All: is present and followed by at least one digit-or-dot
character the maximal such run is captured, otherwise the scan restarts
one character later. -/
def scanAllAux : List Char → Option (List Char)
  | [] => none
  | c :: rest =>
    if listLeads ['A', 'l', 'l', ':'] (c :: rest) then
      let captured := (rest.drop 3).takeWhile isScoreChar
      if captured.isEmpty then scanAllAux rest else some captured
    else scanAllAux rest

/-- Model of output.match(/All:([0-9.]+)/), returning the capture. -/
def findAllCapture (s : String) : Option String :=
  (scanAllAux s.data).map String.mk

/-- Numeric value of a list of decimal digit characters. -/
def digitsVal (l : List Char) : Nat :=
  l.foldl (fun a c => 10 * a + (c.toNat - 48)) 0

/-- Model of JavaScript parseFloat on the strings the regex capture can
produce (nonempty, characters limited to digits and dots): the longest
prefix of the form digits, optional dot, digits is parsed; a capture
that begins with a dot not followed by a digit (dots only) parses to
NaN, modelled as none. -/
def jsParseFloatDD (s : String) : Option ℚ :=
  let l := s.data
  let d1 := l.takeWhile Char.isDigit
  let r1 := l.dropWhile Char.isDigit
  match r1 with
  | '.' :: r2 =>
    let d2 := r2.takeWhile Char.isDigit
    if d1.isEmpty && d2.isEmpty then none
    else some ((digitsVal d1 : ℚ) + (digitsVal d2 : ℚ) / (10 : ℚ) ^ d2.length)
  | _ => if d1.isEmpty then none else some (digitsVal d1)

/-- Model of calculateFrameDifference(frame1Path, frame2Path): the frame
paths only reach the spawned engine, so the function is determined by
the engine run's outcome.  On the error event it resolves 0.5; on close
(any exit code) it searches stderr for the SSIM line: a parsed
similarity yields 1 - ssim, no regex match yields the 0.5 fallback, and
a dots-only capture yields NaN (parseFloat NaN propagated through the
subtraction).  Every path resolves; none throws or rejects. -/
def calculateFrameDifference (run : EngineRun) : JsNum :=
  match run with
  | .spawnError => .num (1/2)
  | .closed _ out =>
    match findAllCapture out with
    | some g =>
      match jsParseFloatDD g with
      | some ssim => .num (1 - ssim)
      | none => .nan
    | none => .num (1/2)

theorem natDigits_no_dot (n : Nat) (c : Char) (hc : c ∈ natDigits n) : c ≠ '.' :=
  natDigitsAux_no_dot (n + 1) n c hc

/-- C8.  For every timestamp the driver can select (nonnegative, an
exact multiple of one tenth), the filename built on the motion-analysis
path and the one built on the simple-fallback path both equal the
artifact name stated by the specification's naming convention:
baseName, double hyphen, the timestamp to one decimal place with the
decimal point replaced by a hyphen, then s and the webp extension. -/
theorem artifact_naming (t : ℚ) (h1 : 0 ≤ t) (h2 : (t * 10).den = 1) :
    stableOutputFilename t = specArtifactName t
    ∧ simpleOutputFilename t = specArtifactName t := by
  have key : replDot (toFixed1Data t)
      = natDigits (((t * 10).floor).toNat / 10) ++ '-'
        :: [digitChar (((t * 10).floor).toNat % 10)] := by
    simp only [toFixed1Data]
    exact replDot_at_dot _ _ (fun c hc => natDigits_no_dot _ c hc)
  constructor <;>
    simp only [stableOutputFilename, simpleOutputFilename, specArtifactName,
      OUTPUT_BASE_FILENAME, key] <;>
    simp [List.append_assoc]

/-- Witness for artifact_naming: the timestamp 4.2 = 21/5 satisfies the
hypotheses and produces the specification's example name
firstframe--4-2s.webp on both paths. -/
theorem artifact_naming_witness :
    (0 ≤ (21/5 : ℚ) ∧ (((21:ℚ)/5) * 10).den = 1)
    ∧ stableOutputFilename (21/5) = "firstframe--4-2s.webp"
    ∧ simpleOutputFilename (21/5) = "firstframe--4-2s.webp" := by
  have hq : ((21:ℚ)/5 * 10) = 42 := by norm_num
  have hden : (((21:ℚ)/5) * 10).den = 1 := by rw [hq]; rfl
  have h1 : (0:ℚ) ≤ 21/5 := by norm_num
  have spec42 : specArtifactName (21/5) = "firstframe--4-2s.webp" := by
    simp only [specArtifactName, hq, Rat.floor_def]
    norm_num
    decide
  have h := artifact_naming (21/5) h1 hden
  exact ⟨⟨h1, hden⟩, h.1.trans spec42, h.2.trans spec42⟩

/-- C5 counterexample.  A diagnostic output whose SSIM capture is
dots-only ("All:..") makes the regex match but parseFloat return NaN:
the scorer resolves NaN = 1 - NaN, not the neutral fallback 0.5 that
the claim requires whenever no similarity metric can be parsed. -/
theorem scorer_unparseable_counterexample :
    calculateFrameDifference (EngineRun.closed 0 "All:..") = JsNum.nan
    ∧ JsNum.nan ≠ JsNum.num (1/2)
    ∧ findAllCapture "All:.." = some ".."
    ∧ jsParseFloatDD ".." = none :=
  ⟨by decide, by decide, by decide, by decide⟩

/-- C5 as amended.  The scorer always resolves and never throws (it is
a total function of the engine outcome): it returns 1 - similarity when
the SSIM regex matches and the capture parses to a number, the neutral
0.5 when the regex does not match or the engine cannot be started, and
NaN (not 0.5) in the one remaining case of a dots-only capture whose
parseFloat is NaN. -/
theorem scorer_amended (exitCode : Int) (out g : String) (q : ℚ) :
    calculateFrameDifference EngineRun.spawnError = JsNum.num (1/2)
    ∧ (findAllCapture out = none →
        calculateFrameDifference (.closed exitCode out) = JsNum.num (1/2))
    ∧ (findAllCapture out = some g → jsParseFloatDD g = some q →
        calculateFrameDifference (.closed exitCode out) = JsNum.num (1 - q))
    ∧ (findAllCapture out = some g → jsParseFloatDD g = none →
        calculateFrameDifference (.closed exitCode out) = JsNum.nan) := by
  refine ⟨rfl, ?_, ?_, ?_⟩
  · intro h1
    simp [calculateFrameDifference, h1]
  · intro h1 h2
    simp [calculateFrameDifference, h1, h2]
  · intro h1 h2
    simp [calculateFrameDifference, h1, h2]

/-- Witness for scorer_amended: on the diagnostic line All:0.8 the
capture is 0.8, the parsed similarity is 4/5, and the scorer resolves
1 - 4/5. -/
theorem scorer_amended_witness :
    findAllCapture "All:0.8" = some "0.8"
    ∧ jsParseFloatDD "0.8" = some (4/5)
    ∧ calculateFrameDifference (EngineRun.closed 0 "All:0.8") = JsNum.num (1 - 4/5) := by
  have h1 : findAllCapture "All:0.8" = some "0.8" := by decide
  have h2 : jsParseFloatDD "0.8" = some (4/5) := by
    show jsParseFloatDD (String.mk ['0', '.', '8']) = some (4/5)
    simp only [jsParseFloatDD, List.takeWhile, List.dropWhile,
      show ('0').isDigit = true from rfl, show ('.').isDigit = false from rfl,
      show ('8').isDigit = true from rfl,
      show digitsVal ['0'] = 0 from rfl, show digitsVal ['8'] = 8 from rfl]
    norm_num
  exact ⟨h1, h2, (scorer_amended 0 "All:0.8" "0.8" (4/5)).2.2.1 h1 h2⟩

/-- One element of the motionScores array of analyzeMotion. -/
structure MotionScoreRec where
  timestamp : ℚ
  score : JsNum
  frameIndex : Nat
deriving DecidableEq, Repr

/-- JavaScript strict-less-than on scorer results: comparisons against
NaN are always false, numbers compare as rationals. -/
def jsltScore : JsNum → JsNum → Bool
  | .num a, .num b => decide (a < b)
  | _, _ => false

/-- The reduce of analyzeMotion: (min, current) => current.score <
min.score ? current : min, i.e. the accumulator is replaced only on a
strictly lower score, so the first minimum encountered is kept. -/
def reduceMin (acc : MotionScoreRec) : List MotionScoreRec → MotionScoreRec
  | [] => acc
  | c :: rest => reduceMin (if jsltScore c.score acc.score then c else acc) rest

/-- The motionScores array built by the analysis loop: entry for pair
index i carries timestamp startTime + i * 0.5 and the pair's score;
built here from index i upward. -/
def motionScoresFrom (startTime : ℚ) : Nat → List JsNum → List MotionScoreRec
  | _, [] => []
  | i, s :: rest => ⟨startTime + i * (1/2), s, i⟩ :: motionScoresFrom startTime (i + 1) rest

/-- The filter applied to the temp directory listing:
f.startsWith("frame_") && f.endsWith(".jpg"). -/
def isFrameFile (name : String) : Bool :=
  jsStartsWith name "frame_" && jsEndsWith name ".jpg"

/-- Number of burst frames analyzeMotion finds in the temp directory
listing (sorting the names does not change the count). -/
def nFrames (files : List String) : Nat := (files.filter isFrameFile).length

/-- Outcome of one sampling pass as analyzeMotion's handlers observe
it: the ffmpeg error event fired; ffmpeg closed with non-zero code;
ffmpeg closed with code 0 but reading the temp directory threw; or
ffmpeg closed with code 0 and the directory listing was obtained, in
which case scoring pair i spawns a further engine run pair i. -/
inductive SampleRun where
  | spawnError
  | exitNonzero
  | readError
  | exitZero (files : List String) (pair : Nat → EngineRun)

/-- The scores the analysis loop collects for pairs 1 .. n-1, in loop
order, each one the resolved value of one scorer invocation. -/
def pairScores (n : Nat) (pair : Nat → EngineRun) : List JsNum :=
  (List.range (n - 1)).map fun k => calculateFrameDifference (pair (k + 1))

/-- Observable effects of one analyzeMotion pass: how the promise
settled (ok = resolve, error = reject), how many scorer invocations
were made, and whether the temp_frames directory was removed before
settling. -/
structure MotionRun where
  result : Except Unit ℚ
  scorerCalls : Nat
  tempCleaned : Bool

/-- Model of analyzeMotion(inputPath, startTime, endTime, videoInfo).
The ffmpeg error event rejects after cleanup; a non-zero close resolves
startTime + 1 after cleanup; a throw while reading the temp directory
rejects after cleanup; otherwise fewer than 2 frame files resolve
startTime + 0.5 after cleanup with no scorer call, and with n >= 2
frames the loop scores pairs 1..n-1, the reduce keeps the first
strictly-minimal score, and the pass resolves its timestamp after
cleanup.  (The reduce of an empty array would throw; that arm is
unreachable because n >= 2 makes the scores list nonempty.) -/
def analyzeMotionRun (startTime : ℚ) : SampleRun → MotionRun
  | .spawnError => ⟨.error (), 0, true⟩
  | .exitNonzero => ⟨.ok (startTime + 1), 0, true⟩
  | .readError => ⟨.error (), 0, true⟩
  | .exitZero files pair =>
    if nFrames files < 2 then ⟨.ok (startTime + 1/2), 0, true⟩
    else
      match motionScoresFrom startTime 1 (pairScores (nFrames files) pair) with
      | [] => ⟨.error (), (pairScores (nFrames files) pair).length, true⟩
      | m :: rest => ⟨.ok (reduceMin m rest).timestamp, (pairScores (nFrames files) pair).length, true⟩

/-- The value analyzeMotion settles with (the promise view of the
pass). -/
def analyzeMotion (startTime : ℚ) (run : SampleRun) : Except Unit ℚ :=
  (analyzeMotionRun startTime run).result

/-- The analysis window as extractStableFrame passes it to
analyzeMotion: startTime 0.5 and endTime Math.min(10, duration * 0.3). -/
def analysisEndTime (duration : ℚ) : ℚ := min 10 (duration * (3/10))

/-- The (startTime, endTime) argument pair at the analyzeMotion call
site inside extractStableFrame. -/
def stableCallArgs (duration : ℚ) : ℚ × ℚ := (1/2, analysisEndTime duration)

/-- How extractStableFrame proceeds after the selection step: with the
selected timestamp on the normal path, or retrying once through
extractSimpleFrame at the fixed 2.0s fallback when the selection
subsystem rejected (the catch block). -/
inductive ExtractPath where
  | stable (t : ℚ)
  | simpleFallback (t : ℚ)
deriving DecidableEq, Repr

/-- Model of extractStableFrame's control flow around the selection:
await analyzeMotion(inputPath, 0.5, analysisEndTime, videoInfo); on
resolution continue with the stable timestamp, on rejection fall back
to extractSimpleFrame(..., 2.0). -/
def extractStableFrameDispatch (duration : ℚ) (run : SampleRun) : ExtractPath :=
  match analyzeMotion (1/2) run with
  | .ok t => .stable t
  | .error _ => .simpleFallback 2

/-- The timestamp the chosen path extracts at. -/
def pathTimestamp : ExtractPath → ℚ
  | .stable t => t
  | .simpleFallback t => t

/-- Reference (timestamp, score) pairs from the specification's words:
pair i, counting from i, is assigned timestamp windowStart + i * 0.5. -/
def specPairsFrom (windowStart : ℚ) : Nat → List ℚ → List (ℚ × ℚ)
  | _, [] => []
  | i, q :: rest => (windowStart + i * (1/2), q) :: specPairsFrom windowStart (i + 1) rest

/-- Minimum of a starting score and the scores of a pair list. -/
def minScoreFrom (a : ℚ) (l : List (ℚ × ℚ)) : ℚ :=
  l.foldl (fun b c => min b c.2) a

/-- Reference stable-timestamp selection, stated from the claim's words
independently of the code's reduce: among the motion-score pairs for the
burst (timestamps windowStart + i * 0.5 with windowStart = 0.5), return
the timestamp of the first pair whose score attains the minimal score. -/
def specStableTimestamp (qs : List ℚ) : ℚ :=
  match specPairsFrom (1/2) 1 qs with
  | [] => 0
  | p :: rest =>
    match (p :: rest).find? (fun c => decide (c.2 ≤ minScoreFrom p.2 rest)) with
    | some c => c.1
    | none => 0

/-- Rational-pair version of the code's reduce, used to bridge the code
and the reference selection. -/
def pairReduce (m : ℚ × ℚ) : List (ℚ × ℚ) → ℚ × ℚ
  | [] => m
  | c :: rest => pairReduce (if c.2 < m.2 then c else m) rest

theorem minScoreFrom_le (l : List (ℚ × ℚ)) (a : ℚ) : minScoreFrom a l ≤ a := by
  induction l generalizing a with
  | nil => exact le_refl a
  | cons c rest ih =>
    calc minScoreFrom a (c :: rest) = minScoreFrom (min a c.2) rest := rfl
    _ ≤ min a c.2 := ih (min a c.2)
    _ ≤ a := min_le_left a c.2

theorem minScoreFrom_cons (m c : ℚ × ℚ) (rest : List (ℚ × ℚ)) :
    minScoreFrom m.2 (c :: rest) = minScoreFrom (if c.2 < m.2 then c else m).2 rest := by
  have h2 : (if c.2 < m.2 then c else m).2 = min m.2 c.2 := by
    by_cases h : c.2 < m.2
    · rw [if_pos h]; exact (min_eq_right (le_of_lt h)).symm
    · rw [if_neg h]; exact (min_eq_left (le_of_not_lt h)).symm
  rw [h2]; rfl

/-- The reduce that replaces only on a strictly lower score computes the
first pair attaining the minimal score. -/
theorem find_min_eq_pairReduce (l : List (ℚ × ℚ)) (m : ℚ × ℚ) :
    (m :: l).find? (fun c => decide (c.2 ≤ minScoreFrom m.2 l)) = some (pairReduce m l) := by
  induction l generalizing m with
  | nil =>
    simp [minScoreFrom, pairReduce, List.find?]
  | cons c rest ih =>
    have hmin : minScoreFrom m.2 (c :: rest)
        = minScoreFrom (if c.2 < m.2 then c else m).2 rest := minScoreFrom_cons m c rest
    have hred : pairReduce m (c :: rest) = pairReduce (if c.2 < m.2 then c else m) rest := rfl
    rw [hmin, hred]
    by_cases h : c.2 < m.2
    · rw [if_pos h] at *
      have hM : minScoreFrom c.2 rest ≤ c.2 := minScoreFrom_le rest c.2
      have hm_f : ¬ (m.2 ≤ minScoreFrom c.2 rest) := not_le.mpr (lt_of_le_of_lt hM h)
      rw [List.find?_cons_of_neg _ (by simpa using hm_f)]
      exact ih c
    · rw [if_neg h] at *
      have hcm : m.2 ≤ c.2 := le_of_not_lt h
      by_cases hp : m.2 ≤ minScoreFrom m.2 rest
      · have hfind := ih m
        rw [List.find?_cons_of_pos _ (by simpa using hp)] at hfind ⊢
        exact hfind
      · have hfind := ih m
        rw [List.find?_cons_of_neg _ (by simpa using hp)] at hfind
        have hc_f : ¬ (c.2 ≤ minScoreFrom m.2 rest) :=
          not_le.mpr (lt_of_lt_of_le (not_le.mp hp) hcm)
        rw [List.find?_cons_of_neg _ (by simpa using hp),
          List.find?_cons_of_neg _ (by simpa using hc_f)]
        exact hfind

/-- Pair-shaped restatement of find_min_eq_pairReduce, convenient for
rewriting after the head pair's projections have been reduced. -/
theorem find_min_eq_pairReduce_pair (l : List (ℚ × ℚ)) (t a : ℚ) :
    List.find? (fun c => decide (c.2 ≤ minScoreFrom a l)) ((t, a) :: l)
      = some (pairReduce (t, a) l) :=
  find_min_eq_pairReduce l (t, a)

/-- Rational value of a numeric score (0 as a harmless default for
NaN; only used under the hypothesis that all scores are numeric). -/
def scoreVal : JsNum → ℚ
  | .num q => q
  | .nan => 0

/-- Projection of a motionScores record to a (timestamp, score) pair. -/
def toPair (x : MotionScoreRec) : ℚ × ℚ := (x.timestamp, scoreVal x.score)

theorem reduceMin_toPair (l : List MotionScoreRec) (m : MotionScoreRec)
    (hm : ∃ q, m.score = JsNum.num q)
    (hl : ∀ x ∈ l, ∃ q, x.score = JsNum.num q) :
    toPair (reduceMin m l) = pairReduce (toPair m) (l.map toPair) := by
  induction l generalizing m with
  | nil => rfl
  | cons c rest ih =>
    obtain ⟨qm, hqm⟩ := hm
    obtain ⟨qc, hqc⟩ := hl c (List.mem_cons_self c rest)
    have hcond : jsltScore c.score m.score = decide ((toPair c).2 < (toPair m).2) := by
      rw [hqc, hqm]
      simp [jsltScore, toPair, scoreVal, hqc, hqm]
    have hstep : reduceMin m (c :: rest)
        = reduceMin (if jsltScore c.score m.score then c else m) rest := rfl
    have hstep2 : pairReduce (toPair m) (toPair c :: rest.map toPair)
        = pairReduce (if (toPair c).2 < (toPair m).2 then toPair c else toPair m)
            (rest.map toPair) := rfl
    rw [List.map_cons, hstep, hstep2]
    by_cases h : (toPair c).2 < (toPair m).2
    · rw [if_pos h]
      have hb : jsltScore c.score m.score = true := by rw [hcond]; simpa using h
      rw [hb, if_pos rfl]
      exact ih c ⟨qc, hqc⟩ (fun x hx => hl x (List.mem_cons_of_mem c hx))
    · rw [if_neg h]
      have hb : jsltScore c.score m.score = false := by rw [hcond]; simpa using h
      rw [hb]
      simp only [Bool.false_eq_true, if_false]
      exact ih m ⟨qm, hqm⟩ (fun x hx => hl x (List.mem_cons_of_mem c hx))

theorem motionScoresFrom_map (qs : List ℚ) (s : ℚ) (i : Nat) :
    (motionScoresFrom s i (qs.map JsNum.num)).map toPair = specPairsFrom s i qs := by
  induction qs generalizing i with
  | nil => rfl
  | cons q rest ih =>
    simp only [List.map_cons, motionScoresFrom, specPairsFrom, List.map]
    exact congrArg _ (ih (i + 1))

theorem motionScoresFrom_allNum (qs : List ℚ) (s : ℚ) (i : Nat) :
    ∀ x ∈ motionScoresFrom s i (qs.map JsNum.num), ∃ q, x.score = JsNum.num q := by
  induction qs generalizing i with
  | nil => intro x hx; simp [motionScoresFrom] at hx
  | cons q rest ih =>
    intro x hx
    simp only [List.map_cons, motionScoresFrom, List.mem_cons] at hx
    rcases hx with h | h
    · exact ⟨q, by rw [h]⟩
    · exact ih (i + 1) x h

theorem reduceMin_mem (l : List MotionScoreRec) (m : MotionScoreRec) :
    reduceMin m l ∈ m :: l := by
  induction l generalizing m with
  | nil => exact List.mem_cons_self m []
  | cons c rest ih =>
    have hstep : reduceMin m (c :: rest)
        = reduceMin (if jsltScore c.score m.score then c else m) rest := rfl
    rw [hstep]
    have h := ih (if jsltScore c.score m.score then c else m)
    rcases List.mem_cons.mp h with h1 | h1
    · rw [h1]
      by_cases hb : jsltScore c.score m.score
      · rw [if_pos hb]
        exact List.mem_cons_of_mem m (List.mem_cons_self c rest)
      · rw [if_neg hb]
        exact List.mem_cons_self m (c :: rest)
    · exact List.mem_cons_of_mem m (List.mem_cons_of_mem c h1)

theorem motionScoresFrom_timestamp (qs : List JsNum) (s : ℚ) (i : Nat)
    (x : MotionScoreRec) (hx : x ∈ motionScoresFrom s i qs) :
    ∃ j : Nat, i ≤ j ∧ x.timestamp = s + j * (1/2) := by
  induction qs generalizing i with
  | nil => simp [motionScoresFrom] at hx
  | cons q rest ih =>
    simp only [motionScoresFrom, List.mem_cons] at hx
    rcases hx with h | h
    · exact ⟨i, le_refl i, by rw [h]⟩
    · obtain ⟨j, hij, hts⟩ := ih (i + 1) h
      exact ⟨j, by omega, hts⟩

/-- C1.  For every duration and every burst of n >= 2 frames whose
pair scores are numeric, the call site passes windowStart = 0.5 and
windowEnd = min(10, 0.3 * duration) to the analysis, and the analysis
pass resolves exactly the reference selection: pair i carries timestamp
windowStart + i * 0.5, and the returned timestamp is that of the first
pair attaining the minimal motion score (so equal minima yield the
earliest timestamp). -/
theorem stable_selection_matches_reference (d : ℚ) (files : List String)
    (pair : Nat → EngineRun) (qs : List ℚ)
    (hn : 2 ≤ nFrames files)
    (hq : pairScores (nFrames files) pair = qs.map JsNum.num) :
    stableCallArgs d = (1/2, min 10 ((3/10) * d))
    ∧ analyzeMotion (1/2) (SampleRun.exitZero files pair)
        = Except.ok (specStableTimestamp qs) := by
  constructor
  · simp [stableCallArgs, analysisEndTime, mul_comm]
  · obtain ⟨q0, qtail, rfl⟩ : ∃ a l, qs = a :: l := by
      cases qs with
      | nil =>
        exfalso
        have hlen := congrArg List.length hq
        simp [pairScores] at hlen
        omega
      | cons a l => exact ⟨a, l, rfl⟩
    have hnot : ¬ (nFrames files < 2) := not_lt.mpr hn
    show (analyzeMotionRun (1/2) (SampleRun.exitZero files pair)).result = _
    simp only [analyzeMotionRun, if_neg hnot, hq, List.map_cons, motionScoresFrom,
      Nat.cast_one]
    have hm : ∃ q, (⟨1/2 + 1 * (1/2), JsNum.num q0, 1⟩ : MotionScoreRec).score
        = JsNum.num q := ⟨q0, rfl⟩
    have hbridge := reduceMin_toPair (motionScoresFrom (1/2) (1 + 1) (qtail.map JsNum.num))
      ⟨1/2 + 1 * (1/2), JsNum.num q0, 1⟩ hm (motionScoresFrom_allNum qtail (1/2) (1 + 1))
    have hts : (reduceMin ⟨1/2 + 1 * (1/2), JsNum.num q0, 1⟩
        (motionScoresFrom (1/2) (1 + 1) (qtail.map JsNum.num))).timestamp
        = (pairReduce (1/2 + 1 * (1/2), q0)
            (specPairsFrom (1/2) (1 + 1) qtail)).1 := by
      rw [← motionScoresFrom_map qtail (1/2) (1 + 1)]
      exact congrArg Prod.fst hbridge
    have hspec : specStableTimestamp (q0 :: qtail)
        = (pairReduce (1/2 + 1 * (1/2), q0) (specPairsFrom (1/2) (1 + 1) qtail)).1 := by
      simp only [specStableTimestamp, specPairsFrom, Nat.cast_one]
      rw [find_min_eq_pairReduce_pair]
    rw [hspec, ← hts]

/-- Concrete scorer evaluation shared by several witnesses: diagnostic
line All:0.8 gives similarity 4/5 and motion score 1/5. -/
theorem calcFD_all08 :
    calculateFrameDifference (EngineRun.closed 0 "All:0.8") = JsNum.num (1/5) := by
  have h2 : jsParseFloatDD "0.8" = some (4/5) := by
    show jsParseFloatDD (String.mk ['0', '.', '8']) = some (4/5)
    simp only [jsParseFloatDD, List.takeWhile, List.dropWhile,
      show ('0').isDigit = true from rfl, show ('.').isDigit = false from rfl,
      show ('8').isDigit = true from rfl,
      show digitsVal ['0'] = 0 from rfl, show digitsVal ['8'] = 8 from rfl]
    norm_num
  have h1 : findAllCapture "All:0.8" = some "0.8" := by decide
  simp only [calculateFrameDifference, h1, h2]
  norm_num

/-- A concrete three-frame burst: listing of the temp directory. -/
def demoFiles : List String := ["frame_001.jpg", "frame_002.jpg", "frame_003.jpg"]

/-- A concrete scorer-outcome assignment: every pair's engine run
closes with the diagnostic line All:0.8. -/
def demoPair : Nat → EngineRun := fun _ => EngineRun.closed 0 "All:0.8"

/-- Witness for stable_selection_matches_reference: a burst of three
frames with both pair scores equal to 1/5; the tie resolves to the
earliest timestamp 1.0 = 0.5 + 1 * 0.5. -/
theorem stable_selection_witness :
    (2 ≤ nFrames demoFiles
      ∧ pairScores (nFrames demoFiles) demoPair = [(1:ℚ)/5, 1/5].map JsNum.num)
    ∧ stableCallArgs 20 = (1/2, min 10 ((3/10) * 20))
    ∧ analyzeMotion (1/2) (SampleRun.exitZero demoFiles demoPair)
        = Except.ok (specStableTimestamp [1/5, 1/5])
    ∧ specStableTimestamp [1/5, 1/5] = 1 := by
  have hn : 2 ≤ nFrames demoFiles := by decide
  have hn3 : nFrames demoFiles = 3 := by decide
  have hq : pairScores (nFrames demoFiles) demoPair = [(1:ℚ)/5, 1/5].map JsNum.num := by
    rw [hn3]
    show (List.range 2).map (fun k => calculateFrameDifference (demoPair (k + 1)))
      = [(1:ℚ)/5, 1/5].map JsNum.num
    rw [show List.range 2 = [0, 1] from rfl]
    simp only [List.map_cons, List.map_nil, demoPair, calcFD_all08]
  have hmain := stable_selection_matches_reference 20 demoFiles demoPair [1/5, 1/5] hn hq
  refine ⟨⟨hn, hq⟩, hmain.1, hmain.2, ?_⟩
  simp only [specStableTimestamp, specPairsFrom]
  rw [find_min_eq_pairReduce_pair]
  norm_num [pairReduce]

/-- C4.  A burst of fewer than 2 frame files after a successful engine
exit resolves exactly startTime + 0.5 immediately (the call site always
passes windowStart = 0.5 as startTime), performs no scorer invocation,
and cleans the temp directory. -/
theorem degenerate_burst_fallback (s : ℚ) (files : List String) (pair : Nat → EngineRun)
    (h : nFrames files < 2) :
    analyzeMotionRun s (SampleRun.exitZero files pair)
      = ⟨Except.ok (s + 1/2), 0, true⟩ := by
  simp [analyzeMotionRun, h]

/-- Witness for degenerate_burst_fallback: an empty temp directory
listing. -/
theorem degenerate_burst_fallback_witness :
    nFrames [] < 2
    ∧ analyzeMotionRun (1/2) (SampleRun.exitZero [] demoPair)
      = ⟨Except.ok (1/2 + 1/2), 0, true⟩ :=
  ⟨by decide, degenerate_burst_fallback (1/2) [] demoPair (by decide)⟩

/-- C3 counterexample.  A non-zero engine exit does not go through the
degenerate-burst path: the pass resolves startTime + 1 = 1.5, not
windowStart + 0.5 = 1.0; and an engine start failure rejects, so an
exception does surface from the sampling step. -/
theorem engine_failure_counterexample :
    analyzeMotion (1/2) SampleRun.exitNonzero = Except.ok (3/2)
    ∧ ((3:ℚ)/2) ≠ 1/2 + 1/2
    ∧ analyzeMotion (1/2) SampleRun.spawnError = Except.error () := by
  refine ⟨?_, by norm_num, rfl⟩
  show Except.ok ((1:ℚ)/2 + 1) = Except.ok (3/2)
  norm_num

/-- C3 as amended.  When the engine exits non-zero the pass resolves
(no exception) with the distinct fallback startTime + 1 after cleanup
and without scoring; when the engine fails to start the pass rejects,
and the caller's catch recovers by dispatching the 2.0s simple-path
fallback, while a non-zero exit flows on as a normal selection of
1.5s.  (At windowStart = 0.5 neither failure returns
windowStart + 0.5.) -/
theorem engine_failure_amended (d : ℚ) :
    analyzeMotionRun (1/2) SampleRun.exitNonzero = ⟨Except.ok (1/2 + 1), 0, true⟩
    ∧ analyzeMotion (1/2) SampleRun.spawnError = Except.error ()
    ∧ extractStableFrameDispatch d SampleRun.exitNonzero = ExtractPath.stable (1/2 + 1)
    ∧ extractStableFrameDispatch d SampleRun.spawnError = ExtractPath.simpleFallback 2 :=
  ⟨rfl, rfl, rfl, rfl⟩

/-- C6.  Whenever the selection pass rejects, extractStableFrame's
catch substitutes the fixed 2.0s fallback and retries once through the
simple-extraction path; both an engine start failure and an exception
while reading the temp frame files are such rejections. -/
theorem selection_failure_fallback (d : ℚ) (run : SampleRun)
    (h : analyzeMotion (1/2) run = Except.error ()) :
    extractStableFrameDispatch d run = ExtractPath.simpleFallback 2
    ∧ analyzeMotion (1/2) SampleRun.spawnError = Except.error ()
    ∧ analyzeMotion (1/2) SampleRun.readError = Except.error () := by
  refine ⟨?_, rfl, rfl⟩
  unfold extractStableFrameDispatch
  rw [h]

/-- Witness for selection_failure_fallback at the engine-start-failure
rejection. -/
theorem selection_failure_fallback_witness :
    analyzeMotion (1/2) SampleRun.spawnError = Except.error ()
    ∧ extractStableFrameDispatch 5 SampleRun.spawnError = ExtractPath.simpleFallback 2 :=
  ⟨rfl, (selection_failure_fallback 5 SampleRun.spawnError rfl).1⟩

/-- C7.  On every exit path of one motion-analysis pass — engine start
failure, non-zero exit, read exception, degenerate burst, and normal
completion — the temporary frame directory (and with it every sampled
frame file) is removed before the pass settles. -/
theorem temp_cleanup_all_paths (s : ℚ) (run : SampleRun) :
    (analyzeMotionRun s run).tempCleaned = true := by
  cases run with
  | spawnError => rfl
  | exitNonzero => rfl
  | readError => rfl
  | exitZero files pair =>
    by_cases h : nFrames files < 2
    · simp [analyzeMotionRun, h]
    · simp only [analyzeMotionRun, if_neg h]
      split <;> rfl

theorem analyzeMotion_ok_lower_bound (s t : ℚ) (run : SampleRun)
    (h : analyzeMotion s run = Except.ok t) : s + 1/2 ≤ t := by
  cases run with
  | spawnError => exact absurd h (by simp [analyzeMotion, analyzeMotionRun])
  | readError => exact absurd h (by simp [analyzeMotion, analyzeMotionRun])
  | exitNonzero =>
    simp only [analyzeMotion, analyzeMotionRun, Except.ok.injEq] at h
    linarith
  | exitZero files pair =>
    by_cases hn : nFrames files < 2
    · simp only [analyzeMotion, analyzeMotionRun, if_pos hn, Except.ok.injEq] at h
      linarith
    · simp only [analyzeMotion, analyzeMotionRun, if_neg hn] at h
      cases hms : motionScoresFrom s 1 (pairScores (nFrames files) pair) with
      | nil => rw [hms] at h; exact absurd h (by simp)
      | cons m rest =>
        rw [hms] at h
        simp only [Except.ok.injEq] at h
        have hmem : reduceMin m rest ∈ motionScoresFrom s 1 (pairScores (nFrames files) pair) := by
          rw [hms]; exact reduceMin_mem rest m
        obtain ⟨j, hj, hts⟩ := motionScoresFrom_timestamp _ s 1 _ hmem
        have hcast : (1:ℚ) ≤ (j:ℚ) := by exact_mod_cast hj
        have half : (1:ℚ) * (1/2) ≤ (j:ℚ) * (1/2) :=
          mul_le_mul_of_nonneg_right hcast (by norm_num)
        rw [← h, hts]
        linarith

/-- C10.  Every timestamp a motion-analysis pass resolves with is at
least startTime + 0.5 (degenerate burst gives startTime + 0.5, a
non-zero exit startTime + 1, analysis startTime + i * 0.5 with i >= 1);
and since the driver always passes startTime = 0.5 and its exception
fallback is 2.0, the thumbnail is always taken from a timestamp of at
least 1.0 seconds, never at or before windowStart. -/
theorem timestamp_lower_bound_invariant (s t d : ℚ) (run runB : SampleRun)
    (h : analyzeMotion s run = Except.ok t) :
    s + 1/2 ≤ t ∧ 1 ≤ pathTimestamp (extractStableFrameDispatch d runB) := by
  refine ⟨analyzeMotion_ok_lower_bound s t run h, ?_⟩
  cases hr : analyzeMotion (1/2) runB with
  | ok t2 =>
    have hb := analyzeMotion_ok_lower_bound (1/2) t2 runB hr
    simp only [extractStableFrameDispatch, hr, pathTimestamp]
    linarith
  | error e =>
    simp only [extractStableFrameDispatch, hr, pathTimestamp]
    norm_num

/-- Witness for timestamp_lower_bound_invariant at the non-zero-exit
resolution 1.5 and the start-failure dispatch. -/
theorem timestamp_lower_bound_invariant_witness :
    analyzeMotion (1/2) SampleRun.exitNonzero = Except.ok (3/2)
    ∧ ((1:ℚ)/2 + 1/2 ≤ 3/2
        ∧ 1 ≤ pathTimestamp (extractStableFrameDispatch 0 SampleRun.spawnError)) := by
  have hok : analyzeMotion (1/2) SampleRun.exitNonzero = Except.ok (3/2) := by
    show Except.ok ((1:ℚ)/2 + 1) = Except.ok (3/2)
    norm_num
  exact ⟨hok,
    timestamp_lower_bound_invariant (1/2) (3/2) 0 SampleRun.exitNonzero SampleRun.spawnError hok⟩

/-- Observable outcome of one extractVideoThumbnail run: whether the
pipeline work (probe, selection, extraction) was invoked at all, and
the artifact name it produced if so.  (The gate check happens before
any probe or extraction; a fresh gate makes the run return early.) -/
structure RunOutcome where
  engineWorkInvoked : Bool
  extractedFilename : Option String
deriving DecidableEq, Repr

/-- Model of extractVideoThumbnail's gate-then-extract flow for a run
whose selection resolves the timestamp sel: if the gate reports stale,
the pipeline runs and writes the artifact named for sel; otherwise the
run returns before invoking the engine for probing, sampling, scoring
or extraction. -/
def extractVideoThumbnailRun (srcMtime : Int) (outDir : Option (List FileEntry))
    (sel : ℚ) : RunOutcome :=
  if needsExtraction srcMtime outDir then ⟨true, some (stableOutputFilename sel)⟩
  else ⟨false, none⟩

theorem matchesOutput_artifact (t : ℚ) : matchesOutput (stableOutputFilename t) = true := by
  have hdata : (stableOutputFilename t).data
      = "firstframe".data ++ ("--".data ++ (replDot (toFixed1Data t) ++ "s.webp".data)) := rfl
  have h1 : jsStartsWith (stableOutputFilename t) OUTPUT_BASE_FILENAME = true := by
    unfold jsStartsWith
    rw [hdata]
    exact listLeads_self_append _ _
  have h2 : jsEndsWith (stableOutputFilename t) ".webp" = true := by
    unfold jsEndsWith
    rw [hdata]
    simp only [List.reverse_append, List.append_assoc]
    rw [show ("s.webp".data).reverse = (".webp".data).reverse ++ ['s'] from by decide]
    rw [List.append_assoc]
    exact listLeads_self_append _ _
  simp [matchesOutput, h1, h2]

/-- C9.  Round trip on an unchanged source: a first run on an absent
output directory extracts and writes the artifact named for the
selected timestamp; a second run that sees that artifact (written no
earlier than the unchanged source's mtime) gets a not-stale gate and
performs no engine work at all, leaving the identical filename in
place. -/
theorem round_trip_unchanged_source (src out : Int) (t sel : ℚ) (h : src ≤ out) :
    extractVideoThumbnailRun src none t
      = ⟨true, some (stableOutputFilename t)⟩
    ∧ needsExtraction src (some [⟨stableOutputFilename t, out⟩]) = false
    ∧ extractVideoThumbnailRun src (some [⟨stableOutputFilename t, out⟩]) sel
      = ⟨false, none⟩ := by
  have hm : matchesOutput (stableOutputFilename t) = true := matchesOutput_artifact t
  have hgate : needsExtraction src (some [⟨stableOutputFilename t, out⟩]) = false := by
    simp [needsExtraction, hm, staleLoop, h]
  refine ⟨?_, hgate, ?_⟩
  · simp [extractVideoThumbnailRun, needsExtraction]
  · simp [extractVideoThumbnailRun, hgate]

/-- Witness for round_trip_unchanged_source: source mtime 0, output
written at mtime 5, selected timestamp 1.5. -/
theorem round_trip_unchanged_source_witness :
    ((0:Int) ≤ 5)
    ∧ extractVideoThumbnailRun 0 none (3/2)
      = ⟨true, some (stableOutputFilename (3/2))⟩
    ∧ needsExtraction 0 (some [⟨stableOutputFilename (3/2), 5⟩]) = false
    ∧ extractVideoThumbnailRun 0 (some [⟨stableOutputFilename (3/2), 5⟩]) (3/2)
      = ⟨false, none⟩ := by
  have h := round_trip_unchanged_source 0 5 (3/2) (3/2) (by decide)
  exact ⟨by decide, h.1, h.2.1, h.2.2⟩

end Cinedraries
